import Mathlib

/-!
Sighash cache of `zecutil` (`hashcache.go`)

A shallow embedding of `NewTxSigHashes`, `calcHashPrevOuts`, `calcHashSequence`
and `calcHashOutputs`, together with the pieces of the Go standard library and of
`btcd` they call (`bytes.Buffer`, `binary.LittleEndian.PutUint32`,
`wire.WriteTxOut`).

Conventions of the embedding:

* a byte is a `Fin 256`; a byte slice is a `List Byte`;
* `uint32`, `uint64` are natural numbers (the functions below only ever look at
  their low bytes), `int64` is an integer, converted with an explicit `% 2^64`;
* a Go function returning `(value, error)` returns a pair whose second component
  is `none` for a `nil` error: Go assigns both results also when the error is not
  `nil`, and `NewTxSigHashes` stores the value before it tests the error;
* `blake2bHash` is defined in another file of the package; every function that
  calls it takes it as its first argument;
* the slices `TxIn`, `TxOut` hold pointers in Go; the embedding covers the
  transactions in which none of them is `nil` (the loops dereference each one).
-/

namespace Zecutil

/-! ## Bytes, buffers, hashes -/

/-- One octet. -/
abbrev Byte := Fin 256

/-- Go conversion `byte(v)` of an unsigned integer: the low eight bits. -/
def byte (v : Nat) : Byte := ⟨v % 256, Nat.mod_lt _ (by decide)⟩

/-- Go conversion `[]byte(s)` of a string: its UTF-8 bytes. -/
def stringBytes (s : String) : List Byte :=
  s.toUTF8.data.toList.map fun u => byte u.toNat

/-- Type `chainhash.Hash`, which is `[32]byte`. -/
structure chainhash.Hash where
  bytes : List Byte
  size_eq : bytes.length = 32
deriving DecidableEq

/-- The zero value of `chainhash.Hash`. -/
def chainhash.Hash.zero : chainhash.Hash := ⟨List.replicate 32 0, by simp⟩

instance : Inhabited chainhash.Hash := ⟨chainhash.Hash.zero⟩

/-- The contents of a `bytes.Buffer` that is only written to. -/
abbrev bytes.Buffer := List Byte

/-- Error values an `io.Writer` may return. -/
inductive WriteError where
  | shortWrite
deriving DecidableEq, Repr

/-- Method `(*bytes.Buffer).Write`: appends `p`; the returned error is always `nil`. -/
def bytes.Buffer.Write (b : bytes.Buffer) (p : List Byte) :
    bytes.Buffer × Option WriteError :=
  (b ++ p, none)

/-! ## `encoding/binary` -/

/-- Go `binary.LittleEndian.PutUint16`, as the two bytes stored. -/
def binary.LittleEndian.PutUint16 (v : Nat) : List Byte :=
  [byte v, byte (v >>> 8)]

/-- Go `binary.LittleEndian.PutUint32`, as the four bytes stored in `b[0..3]`. -/
def binary.LittleEndian.PutUint32 (v : Nat) : List Byte :=
  [byte v, byte (v >>> 8), byte (v >>> 16), byte (v >>> 24)]

/-- Go `binary.LittleEndian.PutUint64`, as the eight bytes stored. -/
def binary.LittleEndian.PutUint64 (v : Nat) : List Byte :=
  [byte v, byte (v >>> 8), byte (v >>> 16), byte (v >>> 24),
   byte (v >>> 32), byte (v >>> 40), byte (v >>> 48), byte (v >>> 56)]

/-! ## `btcd/wire` -/

/-- Type `wire.OutPoint`: `Hash chainhash.Hash`, `Index uint32`. -/
structure wire.OutPoint where
  Hash : chainhash.Hash
  Index : Nat
deriving DecidableEq

/-- Type `wire.TxIn`. -/
structure wire.TxIn where
  PreviousOutPoint : wire.OutPoint
  SignatureScript : List Byte
  Witness : List (List Byte)
  Sequence : Nat
deriving DecidableEq

/-- Type `wire.TxOut`: `Value int64`, `PkScript []byte`. -/
structure wire.TxOut where
  Value : Int
  PkScript : List Byte
deriving DecidableEq

/-- Go conversion `uint64(v)` of an `int64`. -/
def uint64 (v : Int) : Nat := (v % 2 ^ 64).toNat

/-- The `binarySerializer.PutUint8` of `wire`: writes one byte. -/
def wire.PutUint8 (w : bytes.Buffer) (val : Nat) : bytes.Buffer × Option WriteError :=
  w.Write [byte val]

/-- The `binarySerializer.PutUint16` of `wire` with `littleEndian`. -/
def wire.PutUint16 (w : bytes.Buffer) (val : Nat) : bytes.Buffer × Option WriteError :=
  w.Write (binary.LittleEndian.PutUint16 val)

/-- The `binarySerializer.PutUint32` of `wire` with `littleEndian`. -/
def wire.PutUint32 (w : bytes.Buffer) (val : Nat) : bytes.Buffer × Option WriteError :=
  w.Write (binary.LittleEndian.PutUint32 val)

/-- The `binarySerializer.PutUint64` of `wire` with `littleEndian`. -/
def wire.PutUint64 (w : bytes.Buffer) (val : Nat) : bytes.Buffer × Option WriteError :=
  w.Write (binary.LittleEndian.PutUint64 val)

/-- Function `wire.WriteVarInt`: the variable-length integer, the discriminant byte
first; each step returns at the first write error. -/
def wire.WriteVarInt (w : bytes.Buffer) (_pver : Nat) (val : Nat) :
    bytes.Buffer × Option WriteError :=
  if val < 0xfd then
    wire.PutUint8 w val
  else if val ≤ 0xffff then
    match wire.PutUint8 w 0xfd with
    | (w1, some e) => (w1, some e)
    | (w1, none) => wire.PutUint16 w1 val
  else if val ≤ 0xffffffff then
    match wire.PutUint8 w 0xfe with
    | (w1, some e) => (w1, some e)
    | (w1, none) => wire.PutUint32 w1 val
  else
    match wire.PutUint8 w 0xff with
    | (w1, some e) => (w1, some e)
    | (w1, none) => wire.PutUint64 w1 val

/-- Function `wire.WriteVarBytes`: the length as a variable-length integer, then the
bytes. -/
def wire.WriteVarBytes (w : bytes.Buffer) (pver : Nat) (bs : List Byte) :
    bytes.Buffer × Option WriteError :=
  let slen := bs.length
  match wire.WriteVarInt w pver slen with
  | (w1, some e) => (w1, some e)
  | (w1, none) => w1.Write bs

/-- Function `wire.WriteTxOut`: the value as a little-endian `uint64`, then the
public-key script as variable-length bytes; `pver` and `version` are not used. -/
def wire.WriteTxOut (w : bytes.Buffer) (pver : Nat) (_version : Int) (txout : wire.TxOut) :
    bytes.Buffer × Option WriteError :=
  match wire.PutUint64 w (uint64 txout.Value) with
  | (w1, some e) => (w1, some e)
  | (w1, none) => wire.WriteVarBytes w1 pver txout.PkScript

/-- Type `txscript.TxSigHashes`. -/
structure txscript.TxSigHashes where
  HashPrevOuts : chainhash.Hash
  HashSequence : chainhash.Hash
  HashOutputs : chainhash.Hash
deriving DecidableEq

/-- The zero value `txscript.TxSigHashes{}`. -/
def txscript.TxSigHashes.zero : txscript.TxSigHashes :=
  ⟨chainhash.Hash.zero, chainhash.Hash.zero, chainhash.Hash.zero⟩

/-! ## `zecutil` -/

/-- Modelled from the spec: the type `MsgTx` is declared in another file of the
package. It is a transaction view with an ordered sequence of inputs and an
ordered sequence of outputs; the remaining fields are those of the embedded
`wire.MsgTx` (`Version int32`, `LockTime uint32`) and the expiry height. -/
structure MsgTx where
  Version : Int
  TxIn : List wire.TxIn
  TxOut : List wire.TxOut
  LockTime : Nat
  ExpiryHeight : Nat
deriving DecidableEq

/-- The signature of `blake2bHash(data, key []byte) (chainhash.Hash, error)`, with
`ε` the type of errors. -/
abbrev Hasher (ε : Type) := List Byte → List Byte → chainhash.Hash × Option ε

def prevoutsHashPersonalization : String := "ZcashPrevoutHash"
def sequenceHashPersonalization : String := "ZcashSequencHash"
def outputsHashPersonalization : String := "ZcashOutputsHash"
def joinsplitsHashPersonalization : String := "ZcashJSplitsHash"

/-- The buffer of `calcHashPrevOuts` when its loop ends: each iteration writes the
outpoint hash, then the four bytes `PutUint32` stored in `buf`. -/
def prevOutsBuffer (tx : MsgTx) : bytes.Buffer :=
  tx.TxIn.foldl
    (fun b txin =>
      let b1 := (b.Write txin.PreviousOutPoint.Hash.bytes).1
      let buf := binary.LittleEndian.PutUint32 txin.PreviousOutPoint.Index
      (b1.Write buf).1)
    []

/-- Function `calcHashPrevOuts`. -/
def calcHashPrevOuts {ε : Type} (blake2bHash : Hasher ε) (tx : MsgTx) :
    chainhash.Hash × Option ε :=
  blake2bHash (prevOutsBuffer tx) (stringBytes prevoutsHashPersonalization)

/-- The buffer of `calcHashSequence` when its loop ends. -/
def sequenceBuffer (tx : MsgTx) : bytes.Buffer :=
  tx.TxIn.foldl
    (fun b txin =>
      let buf := binary.LittleEndian.PutUint32 txin.Sequence
      (b.Write buf).1)
    []

/-- Function `calcHashSequence`. -/
def calcHashSequence {ε : Type} (blake2bHash : Hasher ε) (tx : MsgTx) :
    chainhash.Hash × Option ε :=
  blake2bHash (sequenceBuffer tx) (stringBytes sequenceHashPersonalization)

/-- The buffer of `calcHashOutputs` when its loop ends: each iteration calls
`wire.WriteTxOut(&b, 0, 0, out)` and drops the error it returns. -/
def outputsBuffer (tx : MsgTx) : bytes.Buffer :=
  tx.TxOut.foldl (fun b out => (wire.WriteTxOut b 0 0 out).1) []

/-- Function `calcHashOutputs`. -/
def calcHashOutputs {ε : Type} (blake2bHash : Hasher ε) (tx : MsgTx) :
    chainhash.Hash × Option ε :=
  blake2bHash (outputsBuffer tx) (stringBytes outputsHashPersonalization)

/-- Function `NewTxSigHashes`: `h` is allocated first and is the pointer returned on
every path; each assignment stores the digest in `h` before the error is tested. -/
def NewTxSigHashes {ε : Type} (blake2bHash : Hasher ε) (tx : MsgTx) :
    txscript.TxSigHashes × Option ε :=
  let h := txscript.TxSigHashes.zero
  let (d1, err1) := calcHashPrevOuts blake2bHash tx
  let h := { h with HashPrevOuts := d1 }
  match err1 with
  | some e => (h, some e)
  | none =>
    let (d2, err2) := calcHashSequence blake2bHash tx
    let h := { h with HashSequence := d2 }
    match err2 with
    | some e => (h, some e)
    | none =>
      let (d3, err3) := calcHashOutputs blake2bHash tx
      let h := { h with HashOutputs := d3 }
      match err3 with
      | some e => (h, some e)
      | none => (h, none)

/-! ## The byte streams as the specification words them -/

/-- Byte `k` of `v`, the least significant byte being byte `0`:
`(v / 256^k) mod 256`. -/
def Spec.leByte (v k : Nat) : Byte := byte (v / 256 ^ k)

/-- The unsigned integer `v` as `n` little-endian bytes. -/
def Spec.leBytes (n v : Nat) : List Byte := (List.range n).map (Spec.leByte v)

/-- The integer a byte string denotes when read least significant byte first. -/
def Spec.leValue (bs : List Byte) : Nat := bs.foldr (fun b acc => b.val + 256 * acc) 0

/-- The compact variable-length encoding of a length: one byte below `0xfd`,
otherwise a marker `0xfd`, `0xfe`, `0xff` and the 2, 4, 8 little-endian bytes. -/
def Spec.compactSize (n : Nat) : List Byte :=
  if n < 0xfd then [byte n]
  else if n < 2 ^ 16 then (0xfd : Byte) :: Spec.leBytes 2 n
  else if n < 2 ^ 32 then (0xfe : Byte) :: Spec.leBytes 4 n
  else (0xff : Byte) :: Spec.leBytes 8 n

/-- The 36 bytes of one previous outpoint: the hash verbatim, then the index as
four little-endian bytes. -/
def Spec.outPointBytes (o : wire.OutPoint) : List Byte :=
  o.Hash.bytes ++ Spec.leBytes 4 o.Index

/-- The previous-outpoints stream: the outpoints of the inputs, in order. -/
def Spec.prevOutsStream (ins : List wire.TxIn) : List Byte :=
  (ins.map fun i => Spec.outPointBytes i.PreviousOutPoint).flatten

/-- The sequence stream: the sequence numbers of the inputs, in order, each as
four little-endian bytes. -/
def Spec.sequenceStream (ins : List wire.TxIn) : List Byte :=
  (ins.map fun i => Spec.leBytes 4 i.Sequence).flatten

/-- The wire encoding of one output: the amount as eight little-endian bytes (a
negative amount in two's complement), the compact size of the script, the
script. -/
def Spec.txOutEncoding (o : wire.TxOut) : List Byte :=
  Spec.leBytes 8 (o.Value % 2 ^ 64).toNat ++ Spec.compactSize o.PkScript.length ++ o.PkScript

/-- The outputs stream: the encodings of the outputs, in order. -/
def Spec.outputsStream (outs : List wire.TxOut) : List Byte :=
  (outs.map Spec.txOutEncoding).flatten

/-! ## Concrete transactions and hashers for the instances -/

/-- The hash whose 32 bytes all equal `b`. -/
def sampleHash (b : Byte) : chainhash.Hash := ⟨List.replicate 32 b, by simp⟩

/-- A hasher for the instances: the digest is the first 32 bytes of the key followed
by the data, padded with zeros; on a key listed in `bad` it returns that key as its
error, beside the digest. -/
def sampleHasher (bad : List (List Byte)) : Hasher (List Byte) := fun data key =>
  (⟨(key ++ data ++ List.replicate 32 0).take 32, by simp; omega⟩,
    if key ∈ bad then some key else none)

/-- Two inputs and one output. -/
def sampleTx : MsgTx :=
  { Version := 4
    TxIn := [⟨⟨sampleHash 0x11, 0⟩, [], [], 0⟩, ⟨⟨sampleHash 0x22, 1⟩, [], [], 0xffffffff⟩]
    TxOut := [⟨100000, [0x76, 0xa9, 0x14, 0x88, 0xac]⟩]
    LockTime := 0
    ExpiryHeight := 0 }

/-- The transaction `sampleTx` with other signature scripts, witnesses, version, lock
time and expiry height. -/
def sampleTxResigned : MsgTx :=
  { Version := 3
    TxIn := [⟨⟨sampleHash 0x11, 0⟩, [0x51], [[0x01]], 0⟩,
             ⟨⟨sampleHash 0x22, 1⟩, [0x52, 0x53], [], 0xffffffff⟩]
    TxOut := [⟨100000, [0x76, 0xa9, 0x14, 0x88, 0xac]⟩]
    LockTime := 500000
    ExpiryHeight := 20 }

/-- The outputs of `sampleTx` with other inputs: other outpoints, other sequence
numbers. -/
def sampleTxOtherInputs : MsgTx :=
  { sampleTx with
    TxIn := [⟨⟨sampleHash 0x33, 7⟩, [0x51], [], 5⟩] }

/-- The outpoints of `sampleTx` with other sequence numbers and other outputs. -/
def sampleTxOtherSequences : MsgTx :=
  { sampleTx with
    TxIn := [⟨⟨sampleHash 0x11, 0⟩, [], [], 1⟩, ⟨⟨sampleHash 0x22, 1⟩, [], [], 2⟩]
    TxOut := [⟨5, []⟩, ⟨-1, [0x6a]⟩] }

/-- The sequence numbers of `sampleTx` with other outpoints and other outputs. -/
def sampleTxOtherOutPoints : MsgTx :=
  { sampleTx with
    TxIn := [⟨⟨sampleHash 0x44, 3⟩, [], [], 0⟩, ⟨⟨sampleHash 0x22, 2⟩, [], [], 0xffffffff⟩]
    TxOut := [] }

/-- A transaction with neither inputs nor outputs. -/
def emptyTx : MsgTx :=
  { Version := 4, TxIn := [], TxOut := [], LockTime := 0, ExpiryHeight := 0 }

/-! ## Ranges of the Go types, list edits and readers used to state the properties -/

/-- The index and the sequence number of an input are values of the Go type
`uint32`. -/
def wire.TxIn.InRange (i : wire.TxIn) : Prop :=
  i.PreviousOutPoint.Index < 2 ^ 32 ∧ i.Sequence < 2 ^ 32

instance (i : wire.TxIn) : Decidable i.InRange :=
  inferInstanceAs (Decidable (i.PreviousOutPoint.Index < 2 ^ 32 ∧ i.Sequence < 2 ^ 32))

/-- The amount of an output is a value of the Go type `int64`, and its script is
shorter than `2^64` bytes. -/
def wire.TxOut.InRange (o : wire.TxOut) : Prop :=
  -(2 ^ 63) ≤ o.Value ∧ o.Value < 2 ^ 63 ∧ o.PkScript.length < 2 ^ 64

instance (o : wire.TxOut) : Decidable o.InRange :=
  inferInstanceAs
    (Decidable (-(2 ^ 63) ≤ o.Value ∧ o.Value < 2 ^ 63 ∧ o.PkScript.length < 2 ^ 64))

/-- Every input and every output of the transaction is in the range of its Go
types. -/
def MsgTx.InRange (tx : MsgTx) : Prop :=
  (∀ i ∈ tx.TxIn, i.InRange) ∧ (∀ o ∈ tx.TxOut, o.InRange)

instance (tx : MsgTx) : Decidable tx.InRange :=
  inferInstanceAs (Decidable ((∀ i ∈ tx.TxIn, i.InRange) ∧ (∀ o ∈ tx.TxOut, o.InRange)))

/-- The list with the elements at positions `i` and `j` exchanged; the list itself
when one of the positions is outside it. -/
def swapAt {α : Type} (l : List α) (i j : Nat) : List α :=
  match l[i]?, l[j]? with
  | some a, some b => (l.set i b).set j a
  | _, _ => l

/-- The hasher gives different digests under `tag` to the streams `s1` and `s2`
unless they are the same stream. -/
def NoCollision {ε : Type} (blake2bHash : Hasher ε) (tag s1 s2 : List Byte) : Prop :=
  (blake2bHash s1 tag).1 = (blake2bHash s2 tag).1 → s1 = s2

/-- A reader of the compact variable-length integer at the head of a byte string:
the integer and the bytes after it. -/
def Spec.readCompactSize : List Byte → Option (Nat × List Byte)
  | [] => none
  | b :: rest =>
    if b.val < 0xfd then some (b.val, rest)
    else if b.val = 0xfd then some (Spec.leValue (rest.take 2), rest.drop 2)
    else if b.val = 0xfe then some (Spec.leValue (rest.take 4), rest.drop 4)
    else some (Spec.leValue (rest.take 8), rest.drop 8)

/-- A reader of one output at the head of a byte string: eight bytes of amount (read
as a two's complement `int64`), the compact size of the script, the script; it
returns the output and the bytes after it. -/
def Spec.readTxOut (bs : List Byte) : Option (wire.TxOut × List Byte) :=
  let u := Spec.leValue (bs.take 8)
  let v : Int := if u < 2 ^ 63 then (u : Int) else (u : Int) - 2 ^ 64
  match Spec.readCompactSize (bs.drop 8) with
  | none => none
  | some (n, rest) => some (⟨v, rest.take n⟩, rest.drop n)

/-- The transaction `sampleTx` with a second output. -/
def sampleTxTwoOutputs : MsgTx :=
  { sampleTx with
    TxOut := [⟨100000, [0x76, 0xa9, 0x14, 0x88, 0xac]⟩, ⟨-1, [0x6a]⟩] }

/-! ## Lemmas on the serializers -/

theorem byte_shiftRight (v k : Nat) : byte (v >>> (8 * k)) = Spec.leByte v k := by
  unfold Spec.leByte
  rw [Nat.shiftRight_eq_div_pow, pow_mul]
  norm_num

theorem putUint16_eq_leBytes (v : Nat) :
    binary.LittleEndian.PutUint16 v = Spec.leBytes 2 v := by
  have h1 := byte_shiftRight v 1
  have h0 : byte v = Spec.leByte v 0 := by simp [Spec.leByte]
  simp only [Nat.mul_one] at h1
  simp [binary.LittleEndian.PutUint16, Spec.leBytes, List.range_succ, h0, h1]

theorem putUint32_eq_leBytes (v : Nat) :
    binary.LittleEndian.PutUint32 v = Spec.leBytes 4 v := by
  have h0 : byte v = Spec.leByte v 0 := by simp [Spec.leByte]
  have h1 := byte_shiftRight v 1
  have h2 := byte_shiftRight v 2
  have h3 := byte_shiftRight v 3
  simp only [Nat.mul_one, Nat.reduceMul] at h1 h2 h3
  simp [binary.LittleEndian.PutUint32, Spec.leBytes, List.range_succ, h0, h1, h2, h3]

theorem putUint64_eq_leBytes (v : Nat) :
    binary.LittleEndian.PutUint64 v = Spec.leBytes 8 v := by
  have h0 : byte v = Spec.leByte v 0 := by simp [Spec.leByte]
  have h1 := byte_shiftRight v 1
  have h2 := byte_shiftRight v 2
  have h3 := byte_shiftRight v 3
  have h4 := byte_shiftRight v 4
  have h5 := byte_shiftRight v 5
  have h6 := byte_shiftRight v 6
  have h7 := byte_shiftRight v 7
  simp only [Nat.mul_one, Nat.reduceMul] at h1 h2 h3 h4 h5 h6 h7
  simp [binary.LittleEndian.PutUint64, Spec.leBytes, List.range_succ,
    h0, h1, h2, h3, h4, h5, h6, h7]

/-- A loop that appends `f x` to the buffer for each `x` leaves the buffer followed
by the concatenation of the `f x`. -/
theorem foldl_append_eq_flatten {α : Type} (f : α → List Byte) (l : List α) (b : List Byte) :
    l.foldl (fun acc x => acc ++ f x) b = b ++ (l.map f).flatten := by
  induction l generalizing b with
  | nil => simp
  | cons x xs ih => simp [ih]

theorem writeVarInt_eq (w : bytes.Buffer) (pver val : Nat) :
    wire.WriteVarInt w pver val = (w ++ Spec.compactSize val, none) := by
  unfold wire.WriteVarInt Spec.compactSize
  by_cases h1 : val < 0xfd
  · simp [h1, wire.PutUint8, bytes.Buffer.Write]
  · by_cases h2 : val ≤ 0xffff
    · have h2' : val < 65536 := by omega
      simp [h1, h2, h2', wire.PutUint8, wire.PutUint16, bytes.Buffer.Write,
        putUint16_eq_leBytes, byte]
    · by_cases h3 : val ≤ 0xffffffff
      · have h2' : ¬ val < 65536 := by omega
        have h3' : val < 4294967296 := by omega
        simp [h1, h2, h3, h2', h3', wire.PutUint8, wire.PutUint32, bytes.Buffer.Write,
          putUint32_eq_leBytes, byte]
      · have h2' : ¬ val < 65536 := by omega
        have h3' : ¬ val < 4294967296 := by omega
        simp [h1, h2, h3, h2', h3', wire.PutUint8, wire.PutUint64, bytes.Buffer.Write,
          putUint64_eq_leBytes, byte]

theorem writeTxOut_eq (w : bytes.Buffer) (pver : Nat) (version : Int) (out : wire.TxOut) :
    wire.WriteTxOut w pver version out = (w ++ Spec.txOutEncoding out, none) := by
  simp [wire.WriteTxOut, wire.PutUint64, wire.WriteVarBytes, bytes.Buffer.Write,
    writeVarInt_eq, putUint64_eq_leBytes, Spec.txOutEncoding, uint64]

theorem prevOutsBuffer_eq (tx : MsgTx) : prevOutsBuffer tx = Spec.prevOutsStream tx.TxIn := by
  unfold prevOutsBuffer Spec.prevOutsStream
  simp only [bytes.Buffer.Write, putUint32_eq_leBytes, List.append_assoc]
  have h := foldl_append_eq_flatten (fun i => Spec.outPointBytes i.PreviousOutPoint) tx.TxIn []
  simpa [Spec.outPointBytes] using h

theorem sequenceBuffer_eq (tx : MsgTx) : sequenceBuffer tx = Spec.sequenceStream tx.TxIn := by
  unfold sequenceBuffer Spec.sequenceStream
  simp only [bytes.Buffer.Write, putUint32_eq_leBytes]
  have h := foldl_append_eq_flatten (fun i => Spec.leBytes 4 i.Sequence) tx.TxIn []
  simpa using h

theorem outputsBuffer_eq (tx : MsgTx) : outputsBuffer tx = Spec.outputsStream tx.TxOut := by
  unfold outputsBuffer Spec.outputsStream
  simp only [writeTxOut_eq]
  have h := foldl_append_eq_flatten Spec.txOutEncoding tx.TxOut []
  simpa using h

/-! ## The three category hashes -/

/-- C1: `calcHashPrevOuts` returns exactly what the hasher returns, digest and error,
on the tag `ZcashPrevoutHash` and the buffer that holds, for each input in
transaction order, the 32 bytes of the outpoint hash followed by the outpoint index
as four little-endian bytes, and nothing else. -/
theorem calcHashPrevOuts_eq_hasher_on_stream {ε : Type} (blake2bHash : Hasher ε)
    (tx : MsgTx) :
    calcHashPrevOuts blake2bHash tx =
      blake2bHash (Spec.prevOutsStream tx.TxIn) (stringBytes "ZcashPrevoutHash") := by
  simp only [calcHashPrevOuts, prevOutsBuffer_eq, prevoutsHashPersonalization]

/-- C2: `calcHashSequence` returns exactly what the hasher returns, digest and error,
on the tag `ZcashSequencHash` and the buffer that holds, for each input in
transaction order, the sequence number as four little-endian bytes. -/
theorem calcHashSequence_eq_hasher_on_stream {ε : Type} (blake2bHash : Hasher ε)
    (tx : MsgTx) :
    calcHashSequence blake2bHash tx =
      blake2bHash (Spec.sequenceStream tx.TxIn) (stringBytes "ZcashSequencHash") := by
  simp only [calcHashSequence, sequenceBuffer_eq, sequenceHashPersonalization]

/-- C3: `calcHashOutputs` returns exactly what the hasher returns, digest and error,
on the tag `ZcashOutputsHash` and the buffer that holds, for each output in
transaction order, the amount as eight little-endian bytes, the compact size of the
script and the script. Writing one output appends exactly that encoding whatever the
protocol version and transaction version passed, and returns no error. -/
theorem calcHashOutputs_eq_hasher_on_stream {ε : Type} (blake2bHash : Hasher ε)
    (tx : MsgTx) :
    calcHashOutputs blake2bHash tx =
        blake2bHash (Spec.outputsStream tx.TxOut) (stringBytes "ZcashOutputsHash") ∧
      ∀ (b : bytes.Buffer) (pver : Nat) (version : Int) (out : wire.TxOut),
        (wire.WriteTxOut b pver version out).1 = b ++ Spec.txOutEncoding out ∧
        (wire.WriteTxOut b pver version out).2 = none := by
  refine ⟨?_, fun b pver version out => ?_⟩
  · simp only [calcHashOutputs, outputsBuffer_eq, outputsHashPersonalization]
  · simp [writeTxOut_eq]

/-! ## The builder -/

/-- The result of `NewTxSigHashes`, by cases on the errors of the three category
hashes in the order in which the builder calls them. -/
theorem NewTxSigHashes_cases {ε : Type} (blake2bHash : Hasher ε) (tx : MsgTx) :
    NewTxSigHashes blake2bHash tx =
      match (calcHashPrevOuts blake2bHash tx).2 with
      | some e =>
        (⟨(calcHashPrevOuts blake2bHash tx).1, chainhash.Hash.zero, chainhash.Hash.zero⟩, some e)
      | none =>
        match (calcHashSequence blake2bHash tx).2 with
        | some e =>
          (⟨(calcHashPrevOuts blake2bHash tx).1, (calcHashSequence blake2bHash tx).1,
            chainhash.Hash.zero⟩, some e)
        | none =>
          (⟨(calcHashPrevOuts blake2bHash tx).1, (calcHashSequence blake2bHash tx).1,
            (calcHashOutputs blake2bHash tx).1⟩, (calcHashOutputs blake2bHash tx).2) := by
  unfold NewTxSigHashes
  rcases h1 : calcHashPrevOuts blake2bHash tx with ⟨d1, _ | e1⟩
  · rcases h2 : calcHashSequence blake2bHash tx with ⟨d2, _ | e2⟩
    · rcases h3 : calcHashOutputs blake2bHash tx with ⟨d3, _ | e3⟩ <;>
        simp [txscript.TxSigHashes.zero]
    · simp [txscript.TxSigHashes.zero]
  · simp [txscript.TxSigHashes.zero]

/-- C4: `NewTxSigHashes` returns no error exactly when the three category hashes all
return no error, and then the three fields of the cache it returns are the digests
of `calcHashPrevOuts`, `calcHashSequence` and `calcHashOutputs`. -/
theorem NewTxSigHashes_ok_iff_all_ok {ε : Type} (blake2bHash : Hasher ε) (tx : MsgTx) :
    ((NewTxSigHashes blake2bHash tx).2 = none ↔
        (calcHashPrevOuts blake2bHash tx).2 = none ∧
        (calcHashSequence blake2bHash tx).2 = none ∧
        (calcHashOutputs blake2bHash tx).2 = none) ∧
      ((NewTxSigHashes blake2bHash tx).2 = none →
        (NewTxSigHashes blake2bHash tx).1.HashPrevOuts = (calcHashPrevOuts blake2bHash tx).1 ∧
        (NewTxSigHashes blake2bHash tx).1.HashSequence = (calcHashSequence blake2bHash tx).1 ∧
        (NewTxSigHashes blake2bHash tx).1.HashOutputs = (calcHashOutputs blake2bHash tx).1) := by
  rw [NewTxSigHashes_cases]
  rcases h1 : (calcHashPrevOuts blake2bHash tx).2 with _ | e1
  · rcases h2 : (calcHashSequence blake2bHash tx).2 with _ | e2
    · simp
    · simp
  · simp

/-- Instance of C4: with a hasher that never fails, the build of `sampleTx` returns
no error and the three digests of the category hashes. -/
theorem NewTxSigHashes_ok_iff_all_ok_witness :
    (NewTxSigHashes (sampleHasher []) sampleTx).2 = none ∧
      (NewTxSigHashes (sampleHasher []) sampleTx).1.HashPrevOuts =
        (calcHashPrevOuts (sampleHasher []) sampleTx).1 ∧
      (NewTxSigHashes (sampleHasher []) sampleTx).1.HashSequence =
        (calcHashSequence (sampleHasher []) sampleTx).1 ∧
      (NewTxSigHashes (sampleHasher []) sampleTx).1.HashOutputs =
        (calcHashOutputs (sampleHasher []) sampleTx).1 :=
  ⟨by decide, (NewTxSigHashes_ok_iff_all_ok (sampleHasher []) sampleTx).2 (by decide)⟩

/-- C5, refuted as stated: with a hasher that accepts the tag `ZcashPrevoutHash` and
rejects the tag `ZcashSequencHash`, the build of `sampleTx` returns an error together
with a cache whose `HashPrevOuts` is the digest that `calcHashPrevOuts` computed
without error (it is not the zero digest), while `HashOutputs` is still the zero
digest and not the digest of the outputs: some digests are present, not all. -/
theorem NewTxSigHashes_error_with_half_filled_cache :
    (NewTxSigHashes (sampleHasher [stringBytes "ZcashSequencHash"]) sampleTx).2 =
        some (stringBytes "ZcashSequencHash") ∧
      (calcHashPrevOuts (sampleHasher [stringBytes "ZcashSequencHash"]) sampleTx).2 = none ∧
      (NewTxSigHashes (sampleHasher [stringBytes "ZcashSequencHash"]) sampleTx).1.HashPrevOuts =
        (calcHashPrevOuts (sampleHasher [stringBytes "ZcashSequencHash"]) sampleTx).1 ∧
      (NewTxSigHashes (sampleHasher [stringBytes "ZcashSequencHash"]) sampleTx).1.HashPrevOuts ≠
        chainhash.Hash.zero ∧
      (NewTxSigHashes (sampleHasher [stringBytes "ZcashSequencHash"]) sampleTx).1.HashOutputs =
        chainhash.Hash.zero ∧
      (NewTxSigHashes (sampleHasher [stringBytes "ZcashSequencHash"]) sampleTx).1.HashOutputs ≠
        (calcHashOutputs (sampleHasher [stringBytes "ZcashSequencHash"]) sampleTx).1 := by
  decide

/-- C5, amended: when `NewTxSigHashes` returns an error, the cache returned beside it
is filled up to the failure. The field of each category before the first failing one
holds the digest computed for it, the field of the failing category holds the value
the hasher returned beside its error, and the field of each category after it is
the zero digest. -/
theorem NewTxSigHashes_cache_on_error {ε : Type} (blake2bHash : Hasher ε) (tx : MsgTx)
    (herr : (NewTxSigHashes blake2bHash tx).2 ≠ none) :
    ((calcHashPrevOuts blake2bHash tx).2 ≠ none ∧
        (NewTxSigHashes blake2bHash tx).1 =
          ⟨(calcHashPrevOuts blake2bHash tx).1, chainhash.Hash.zero, chainhash.Hash.zero⟩) ∨
      ((calcHashPrevOuts blake2bHash tx).2 = none ∧
        (calcHashSequence blake2bHash tx).2 ≠ none ∧
        (NewTxSigHashes blake2bHash tx).1 =
          ⟨(calcHashPrevOuts blake2bHash tx).1, (calcHashSequence blake2bHash tx).1,
            chainhash.Hash.zero⟩) ∨
      ((calcHashPrevOuts blake2bHash tx).2 = none ∧
        (calcHashSequence blake2bHash tx).2 = none ∧
        (calcHashOutputs blake2bHash tx).2 ≠ none ∧
        (NewTxSigHashes blake2bHash tx).1 =
          ⟨(calcHashPrevOuts blake2bHash tx).1, (calcHashSequence blake2bHash tx).1,
            (calcHashOutputs blake2bHash tx).1⟩) := by
  rw [NewTxSigHashes_cases] at herr ⊢
  rcases h1 : (calcHashPrevOuts blake2bHash tx).2 with _ | e1
  · rcases h2 : (calcHashSequence blake2bHash tx).2 with _ | e2
    · simp only [h1, h2] at herr
      simp [herr]
    · simp
  · simp

/-- Instance of the amended C5: the build of `sampleTx` with a hasher that rejects the
tag `ZcashOutputsHash` returns an error, and one of the three shapes of cache. -/
theorem NewTxSigHashes_cache_on_error_witness :
    (NewTxSigHashes (sampleHasher [stringBytes "ZcashOutputsHash"]) sampleTx).2 ≠ none ∧
      (((calcHashPrevOuts (sampleHasher [stringBytes "ZcashOutputsHash"]) sampleTx).2 ≠ none ∧
          (NewTxSigHashes (sampleHasher [stringBytes "ZcashOutputsHash"]) sampleTx).1 =
            ⟨(calcHashPrevOuts (sampleHasher [stringBytes "ZcashOutputsHash"]) sampleTx).1,
              chainhash.Hash.zero, chainhash.Hash.zero⟩) ∨
        ((calcHashPrevOuts (sampleHasher [stringBytes "ZcashOutputsHash"]) sampleTx).2 = none ∧
          (calcHashSequence (sampleHasher [stringBytes "ZcashOutputsHash"]) sampleTx).2 ≠ none ∧
          (NewTxSigHashes (sampleHasher [stringBytes "ZcashOutputsHash"]) sampleTx).1 =
            ⟨(calcHashPrevOuts (sampleHasher [stringBytes "ZcashOutputsHash"]) sampleTx).1,
              (calcHashSequence (sampleHasher [stringBytes "ZcashOutputsHash"]) sampleTx).1,
              chainhash.Hash.zero⟩) ∨
        ((calcHashPrevOuts (sampleHasher [stringBytes "ZcashOutputsHash"]) sampleTx).2 = none ∧
          (calcHashSequence (sampleHasher [stringBytes "ZcashOutputsHash"]) sampleTx).2 = none ∧
          (calcHashOutputs (sampleHasher [stringBytes "ZcashOutputsHash"]) sampleTx).2 ≠ none ∧
          (NewTxSigHashes (sampleHasher [stringBytes "ZcashOutputsHash"]) sampleTx).1 =
            ⟨(calcHashPrevOuts (sampleHasher [stringBytes "ZcashOutputsHash"]) sampleTx).1,
              (calcHashSequence (sampleHasher [stringBytes "ZcashOutputsHash"]) sampleTx).1,
              (calcHashOutputs (sampleHasher [stringBytes "ZcashOutputsHash"]) sampleTx).1⟩)) :=
  ⟨by decide,
    NewTxSigHashes_cache_on_error (sampleHasher [stringBytes "ZcashOutputsHash"]) sampleTx
      (by decide)⟩

/-- C6: the error `NewTxSigHashes` returns is, unchanged, the error of the first
category hash that fails, in the order previous outpoints, sequence numbers,
outputs, whatever the later ones return. -/
theorem NewTxSigHashes_error_is_first_failure {ε : Type} (blake2bHash : Hasher ε)
    (tx : MsgTx) :
    (∀ e, (calcHashPrevOuts blake2bHash tx).2 = some e →
        (NewTxSigHashes blake2bHash tx).2 = some e) ∧
      (∀ e, (calcHashPrevOuts blake2bHash tx).2 = none →
        (calcHashSequence blake2bHash tx).2 = some e →
        (NewTxSigHashes blake2bHash tx).2 = some e) ∧
      ((calcHashPrevOuts blake2bHash tx).2 = none →
        (calcHashSequence blake2bHash tx).2 = none →
        (NewTxSigHashes blake2bHash tx).2 = (calcHashOutputs blake2bHash tx).2) := by
  rw [NewTxSigHashes_cases]
  refine ⟨fun e h1 => ?_, fun e h1 h2 => ?_, fun h1 h2 => ?_⟩
  · simp [h1]
  · simp [h1, h2]
  · simp [h1, h2]

/-- Instance of C6: a hasher that rejects all three tags makes the build return the
error of the previous-outpoints hash; one that rejects the sequence and outputs
tags, the error of the sequence hash; one that rejects the outputs tag only, the
error of the outputs hash. -/
theorem NewTxSigHashes_error_is_first_failure_witness :
    (NewTxSigHashes (sampleHasher [stringBytes "ZcashPrevoutHash",
        stringBytes "ZcashSequencHash", stringBytes "ZcashOutputsHash"]) sampleTx).2 =
        some (stringBytes "ZcashPrevoutHash") ∧
      (NewTxSigHashes (sampleHasher [stringBytes "ZcashSequencHash",
        stringBytes "ZcashOutputsHash"]) sampleTx).2 = some (stringBytes "ZcashSequencHash") ∧
      (NewTxSigHashes (sampleHasher [stringBytes "ZcashOutputsHash"]) sampleTx).2 =
        (calcHashOutputs (sampleHasher [stringBytes "ZcashOutputsHash"]) sampleTx).2 :=
  ⟨(NewTxSigHashes_error_is_first_failure _ sampleTx).1 _ (by decide),
    (NewTxSigHashes_error_is_first_failure _ sampleTx).2.1 _ (by decide) (by decide),
    (NewTxSigHashes_error_is_first_failure _ sampleTx).2.2 (by decide) (by decide)⟩

/-- C7: for a transaction without inputs `calcHashPrevOuts` and `calcHashSequence`
return what the hasher returns on the empty buffer under their tags, hence no error
when the hasher accepts the empty buffer; for a transaction without outputs
`calcHashOutputs` returns what the hasher returns on the empty buffer under the
outputs tag. -/
theorem calcHash_of_empty {ε : Type} (blake2bHash : Hasher ε) (tx : MsgTx) :
    (tx.TxIn = [] →
        calcHashPrevOuts blake2bHash tx = blake2bHash [] (stringBytes "ZcashPrevoutHash") ∧
        calcHashSequence blake2bHash tx = blake2bHash [] (stringBytes "ZcashSequencHash") ∧
        ((blake2bHash [] (stringBytes "ZcashPrevoutHash")).2 = none →
          (calcHashPrevOuts blake2bHash tx).2 = none) ∧
        ((blake2bHash [] (stringBytes "ZcashSequencHash")).2 = none →
          (calcHashSequence blake2bHash tx).2 = none)) ∧
      (tx.TxOut = [] →
        calcHashOutputs blake2bHash tx = blake2bHash [] (stringBytes "ZcashOutputsHash")) := by
  refine ⟨fun h => ?_, fun h => ?_⟩
  · have h1 : calcHashPrevOuts blake2bHash tx =
        blake2bHash [] (stringBytes "ZcashPrevoutHash") := by
      simp [calcHashPrevOuts, prevOutsBuffer, h, prevoutsHashPersonalization]
    have h2 : calcHashSequence blake2bHash tx =
        blake2bHash [] (stringBytes "ZcashSequencHash") := by
      simp [calcHashSequence, sequenceBuffer, h, sequenceHashPersonalization]
    exact ⟨h1, h2, fun h0 => by rw [h1]; exact h0, fun h0 => by rw [h2]; exact h0⟩
  · simp [calcHashOutputs, outputsBuffer, h, outputsHashPersonalization]

/-- Instance of C7: the transaction with neither inputs nor outputs. -/
theorem calcHash_of_empty_witness :
    (calcHashPrevOuts (sampleHasher []) emptyTx =
        sampleHasher [] [] (stringBytes "ZcashPrevoutHash") ∧
      calcHashSequence (sampleHasher []) emptyTx =
        sampleHasher [] [] (stringBytes "ZcashSequencHash") ∧
      (calcHashPrevOuts (sampleHasher []) emptyTx).2 = none ∧
      (calcHashSequence (sampleHasher []) emptyTx).2 = none) ∧
      calcHashOutputs (sampleHasher []) emptyTx =
        sampleHasher [] [] (stringBytes "ZcashOutputsHash") :=
  ⟨⟨((calcHash_of_empty (sampleHasher []) emptyTx).1 rfl).1,
      ((calcHash_of_empty (sampleHasher []) emptyTx).1 rfl).2.1,
      ((calcHash_of_empty (sampleHasher []) emptyTx).1 rfl).2.2.1 (by decide),
      ((calcHash_of_empty (sampleHasher []) emptyTx).1 rfl).2.2.2 (by decide)⟩,
    (calcHash_of_empty (sampleHasher []) emptyTx).2 rfl⟩

/-! ## What each digest depends on -/

theorem prevOutsStream_eq_of_outpoints (ins1 ins2 : List wire.TxIn)
    (h : ins1.map (fun i => i.PreviousOutPoint) = ins2.map (fun i => i.PreviousOutPoint)) :
    Spec.prevOutsStream ins1 = Spec.prevOutsStream ins2 := by
  have key : ∀ ins : List wire.TxIn, Spec.prevOutsStream ins =
      ((ins.map (fun i => i.PreviousOutPoint)).map Spec.outPointBytes).flatten := by
    intro ins
    simp [Spec.prevOutsStream, List.map_map, Function.comp_def]
  rw [key, key, h]

theorem sequenceStream_eq_of_sequences (ins1 ins2 : List wire.TxIn)
    (h : ins1.map (fun i => i.Sequence) = ins2.map (fun i => i.Sequence)) :
    Spec.sequenceStream ins1 = Spec.sequenceStream ins2 := by
  have key : ∀ ins : List wire.TxIn, Spec.sequenceStream ins =
      ((ins.map (fun i => i.Sequence)).map (Spec.leBytes 4)).flatten := by
    intro ins
    simp [Spec.sequenceStream, List.map_map, Function.comp_def]
  rw [key, key, h]

/-- C8: two transactions with the same ordered outputs have the same result of
`calcHashOutputs`, whatever their inputs; two transactions whose inputs have the same
ordered previous outpoints have the same result of `calcHashPrevOuts`, whatever their
sequence numbers and outputs; two transactions whose inputs have the same ordered
sequence numbers have the same result of `calcHashSequence`, whatever their outpoints
and outputs. -/
theorem calcHash_independence {ε : Type} (blake2bHash : Hasher ε) (tx1 tx2 : MsgTx) :
    (tx1.TxOut = tx2.TxOut →
        calcHashOutputs blake2bHash tx1 = calcHashOutputs blake2bHash tx2) ∧
      (tx1.TxIn.map (fun i => i.PreviousOutPoint) = tx2.TxIn.map (fun i => i.PreviousOutPoint) →
        calcHashPrevOuts blake2bHash tx1 = calcHashPrevOuts blake2bHash tx2) ∧
      (tx1.TxIn.map (fun i => i.Sequence) = tx2.TxIn.map (fun i => i.Sequence) →
        calcHashSequence blake2bHash tx1 = calcHashSequence blake2bHash tx2) := by
  refine ⟨fun h => ?_, fun h => ?_, fun h => ?_⟩
  · simp only [calcHashOutputs, outputsBuffer, h]
  · simp only [calcHashPrevOuts, prevOutsBuffer_eq, prevOutsStream_eq_of_outpoints _ _ h]
  · simp only [calcHashSequence, sequenceBuffer_eq, sequenceStream_eq_of_sequences _ _ h]

/-- Instance of C8: `sampleTx` against a transaction with other inputs, against one
with other sequence numbers and outputs, and against one with other outpoints and
outputs. -/
theorem calcHash_independence_witness :
    (sampleTx.TxIn ≠ sampleTxOtherInputs.TxIn ∧
        calcHashOutputs (sampleHasher []) sampleTx =
          calcHashOutputs (sampleHasher []) sampleTxOtherInputs) ∧
      (sampleTx.TxIn ≠ sampleTxOtherSequences.TxIn ∧
        sampleTx.TxOut ≠ sampleTxOtherSequences.TxOut ∧
        calcHashPrevOuts (sampleHasher []) sampleTx =
          calcHashPrevOuts (sampleHasher []) sampleTxOtherSequences) ∧
      (sampleTx.TxIn ≠ sampleTxOtherOutPoints.TxIn ∧
        sampleTx.TxOut ≠ sampleTxOtherOutPoints.TxOut ∧
        calcHashSequence (sampleHasher []) sampleTx =
          calcHashSequence (sampleHasher []) sampleTxOtherOutPoints) :=
  ⟨⟨by decide,
      (calcHash_independence (sampleHasher []) sampleTx sampleTxOtherInputs).1 (by decide)⟩,
    ⟨by decide, by decide,
      (calcHash_independence (sampleHasher []) sampleTx sampleTxOtherSequences).2.1
        (by decide)⟩,
    ⟨by decide, by decide,
      (calcHash_independence (sampleHasher []) sampleTx sampleTxOtherOutPoints).2.2
        (by decide)⟩⟩

/-- C9: for a 32-bit value `v`, byte `k` of the four bytes `PutUint32` stores is
`(v / 256^k) mod 256`, and the four bytes read back least significant byte first
give `v`; the value 1 gives `01 00 00 00`, not `00 00 00 01`. These are the four
bytes the loops append: an input added at the end of a transaction appends its
outpoint hash and the four bytes of its index to the previous-outpoints buffer, and
the four bytes of its sequence number to the sequence buffer. -/
theorem putUint32_little_endian (v : Nat) (hv : v < 2 ^ 32) :
    (binary.LittleEndian.PutUint32 v).length = 4 ∧
      (∀ k, k < 4 →
        ((binary.LittleEndian.PutUint32 v)[k]?).map Fin.val = some (v / 256 ^ k % 256)) ∧
      Spec.leValue (binary.LittleEndian.PutUint32 v) = v ∧
      binary.LittleEndian.PutUint32 1 = [1, 0, 0, 0] ∧
      binary.LittleEndian.PutUint32 1 ≠ [0, 0, 0, 1] ∧
      (∀ (tx : MsgTx) (txin : wire.TxIn), txin.PreviousOutPoint.Index = v →
        prevOutsBuffer { tx with TxIn := tx.TxIn ++ [txin] } =
          prevOutsBuffer tx ++ txin.PreviousOutPoint.Hash.bytes ++
            binary.LittleEndian.PutUint32 v) ∧
      (∀ (tx : MsgTx) (txin : wire.TxIn), txin.Sequence = v →
        sequenceBuffer { tx with TxIn := tx.TxIn ++ [txin] } =
          sequenceBuffer tx ++ binary.LittleEndian.PutUint32 v) := by
  refine ⟨rfl, ?_, ?_, by decide, by decide, ?_, ?_⟩
  · intro k hk
    interval_cases k <;>
      simp [binary.LittleEndian.PutUint32, byte, Nat.shiftRight_eq_div_pow]
  · simp only [Spec.leValue, binary.LittleEndian.PutUint32, byte, List.foldr,
      Nat.shiftRight_eq_div_pow]
    norm_num
    omega
  · intro tx txin h
    simp [prevOutsBuffer, bytes.Buffer.Write, List.foldl_append, h]
  · intro tx txin h
    simp [sequenceBuffer, bytes.Buffer.Write, List.foldl_append, h]

/-- Instance of C9: the sequence number `0xfffffffe`. -/
theorem putUint32_little_endian_witness :
    binary.LittleEndian.PutUint32 0xfffffffe = [0xfe, 0xff, 0xff, 0xff] ∧
      Spec.leValue (binary.LittleEndian.PutUint32 0xfffffffe) = 0xfffffffe :=
  ⟨by decide, (putUint32_little_endian 0xfffffffe (by decide)).2.2.1⟩

/-- C10: for a fixed hasher, two transactions with the same ordered triples
(outpoint hash, outpoint index, sequence number) of inputs and the same ordered pairs
(amount, script) of outputs have the same result of `NewTxSigHashes`, digests and
error, whatever their other fields are. -/
theorem NewTxSigHashes_deterministic {ε : Type} (blake2bHash : Hasher ε) (tx1 tx2 : MsgTx)
    (hin : tx1.TxIn.map (fun i => (i.PreviousOutPoint.Hash, i.PreviousOutPoint.Index, i.Sequence))
      = tx2.TxIn.map (fun i => (i.PreviousOutPoint.Hash, i.PreviousOutPoint.Index, i.Sequence)))
    (hout : tx1.TxOut.map (fun o => (o.Value, o.PkScript))
      = tx2.TxOut.map (fun o => (o.Value, o.PkScript))) :
    NewTxSigHashes blake2bHash tx1 = NewTxSigHashes blake2bHash tx2 := by
  have hop : tx1.TxIn.map (fun i => i.PreviousOutPoint) =
      tx2.TxIn.map (fun i => i.PreviousOutPoint) := by
    have h := congrArg (List.map fun t : chainhash.Hash × Nat × Nat =>
      (⟨t.1, t.2.1⟩ : wire.OutPoint)) hin
    simpa [List.map_map, Function.comp_def] using h
  have hseq : tx1.TxIn.map (fun i => i.Sequence) = tx2.TxIn.map (fun i => i.Sequence) := by
    have h := congrArg (List.map fun t : chainhash.Hash × Nat × Nat => t.2.2) hin
    simpa [List.map_map, Function.comp_def] using h
  have hto : tx1.TxOut = tx2.TxOut := by
    have h := congrArg (List.map fun t : Int × List Byte => (⟨t.1, t.2⟩ : wire.TxOut)) hout
    simpa [List.map_map, Function.comp_def] using h
  have h1 : calcHashPrevOuts blake2bHash tx1 = calcHashPrevOuts blake2bHash tx2 := by
    simp only [calcHashPrevOuts, prevOutsBuffer_eq, prevOutsStream_eq_of_outpoints _ _ hop]
  have h2 : calcHashSequence blake2bHash tx1 = calcHashSequence blake2bHash tx2 := by
    simp only [calcHashSequence, sequenceBuffer_eq, sequenceStream_eq_of_sequences _ _ hseq]
  have h3 : calcHashOutputs blake2bHash tx1 = calcHashOutputs blake2bHash tx2 := by
    simp only [calcHashOutputs, outputsBuffer, hto]
  rw [NewTxSigHashes_cases, NewTxSigHashes_cases, h1, h2, h3]

/-- Instance of C10: `sampleTx` and `sampleTxResigned` differ in signature scripts,
witnesses, version, lock time and expiry height, and build the same cache. -/
theorem NewTxSigHashes_deterministic_witness :
    sampleTx ≠ sampleTxResigned ∧
      NewTxSigHashes (sampleHasher []) sampleTx =
        NewTxSigHashes (sampleHasher []) sampleTxResigned :=
  ⟨by decide,
    NewTxSigHashes_deterministic (sampleHasher []) sampleTx sampleTxResigned
      (by decide) (by decide)⟩

/-! ## The streams determine what was written -/

theorem leBytes_length (n v : Nat) : (Spec.leBytes n v).length = n := by
  simp [Spec.leBytes]

theorem leValue_leBytes2 (v : Nat) (hv : v < 2 ^ 16) :
    Spec.leValue (Spec.leBytes 2 v) = v := by
  simp [Spec.leValue, Spec.leBytes, Spec.leByte, byte, List.range_succ]
  omega

theorem leValue_leBytes4 (v : Nat) (hv : v < 2 ^ 32) :
    Spec.leValue (Spec.leBytes 4 v) = v := by
  simp [Spec.leValue, Spec.leBytes, Spec.leByte, byte, List.range_succ]
  omega

theorem leValue_leBytes8 (v : Nat) (hv : v < 2 ^ 64) :
    Spec.leValue (Spec.leBytes 8 v) = v := by
  simp [Spec.leValue, Spec.leBytes, Spec.leByte, byte, List.range_succ]
  omega

theorem leBytes4_inj (v w : Nat) (hv : v < 2 ^ 32) (hw : w < 2 ^ 32)
    (h : Spec.leBytes 4 v = Spec.leBytes 4 w) : v = w := by
  rw [← leValue_leBytes4 v hv, ← leValue_leBytes4 w hw, h]

theorem readCompactSize_compactSize (n : Nat) (hn : n < 2 ^ 64) (t : List Byte) :
    Spec.readCompactSize (Spec.compactSize n ++ t) = some (n, t) := by
  unfold Spec.compactSize
  have v253 : ((253 : Byte) : Nat) = 253 := rfl
  have v254 : ((254 : Byte) : Nat) = 254 := rfl
  have v255 : ((255 : Byte) : Nat) = 255 := rfl
  by_cases h1 : n < 0xfd
  · have h1' : n % 256 < 253 := by omega
    have h1'' : n % 256 = n := by omega
    simp [h1, Spec.readCompactSize, byte, h1', h1'']
  · by_cases h2 : n < 2 ^ 16
    · have e := leValue_leBytes2 n h2
      have l := leBytes_length 2 n
      simp only [h1, h2, if_false, if_true, List.cons_append, Spec.readCompactSize]
      simp [List.take_left' l, List.drop_left' l, e, v253, v254, v255]
    · by_cases h3 : n < 2 ^ 32
      · have e := leValue_leBytes4 n h3
        have l := leBytes_length 4 n
        simp only [h1, h2, h3, if_false, if_true, List.cons_append, Spec.readCompactSize]
        simp [List.take_left' l, List.drop_left' l, e, v253, v254, v255]
      · have e := leValue_leBytes8 n hn
        have l := leBytes_length 8 n
        simp only [h1, h2, h3, if_false, List.cons_append, Spec.readCompactSize]
        simp [List.take_left' l, List.drop_left' l, e, v253, v254, v255]

theorem readTxOut_txOutEncoding (o : wire.TxOut) (ho : o.InRange) (t : List Byte) :
    Spec.readTxOut (Spec.txOutEncoding o ++ t) = some (o, t) := by
  obtain ⟨hlo, hhi, hlen⟩ := ho
  have hu : (o.Value % 2 ^ 64).toNat < 2 ^ 64 := by omega
  have e := leValue_leBytes8 _ hu
  have l := leBytes_length 8 (o.Value % 2 ^ 64).toNat
  have hval : (if (o.Value % 2 ^ 64).toNat < 2 ^ 63 then ((o.Value % 2 ^ 64).toNat : Int)
      else ((o.Value % 2 ^ 64).toNat : Int) - 2 ^ 64) = o.Value := by
    split <;> omega
  unfold Spec.readTxOut Spec.txOutEncoding
  simp only [List.append_assoc, List.take_left' l, List.drop_left' l, e,
    readCompactSize_compactSize _ hlen, hval]
  simp

/-- No encoding of an output is the start of another one followed by anything: two
encodings followed by two tails agree only for the same output and the same tail. -/
theorem txOutEncoding_append_inj (o1 o2 : wire.TxOut) (h1 : o1.InRange) (h2 : o2.InRange)
    (t1 t2 : List Byte) (h : Spec.txOutEncoding o1 ++ t1 = Spec.txOutEncoding o2 ++ t2) :
    o1 = o2 ∧ t1 = t2 := by
  have e1 := readTxOut_txOutEncoding o1 h1 t1
  have e2 := readTxOut_txOutEncoding o2 h2 t2
  rw [h, e2] at e1
  simpa [eq_comm] using e1

theorem txOutEncoding_ne_nil (o : wire.TxOut) : Spec.txOutEncoding o ≠ [] := by
  intro h
  have hl := congrArg List.length h
  simp [Spec.txOutEncoding, leBytes_length] at hl

theorem outputsStream_inj (l1 l2 : List wire.TxOut) (h1 : ∀ o ∈ l1, o.InRange)
    (h2 : ∀ o ∈ l2, o.InRange) (h : Spec.outputsStream l1 = Spec.outputsStream l2) :
    l1 = l2 := by
  induction l1 generalizing l2 with
  | nil =>
    cases l2 with
    | nil => rfl
    | cons o os =>
      exfalso
      have h0 : Spec.txOutEncoding o = [] := by
        have h' := h.symm
        simp only [Spec.outputsStream, List.map_nil, List.flatten_nil, List.map_cons,
          List.flatten_cons, List.append_eq_nil] at h'
        exact h'.1
      exact txOutEncoding_ne_nil o h0
  | cons a as ih =>
    cases l2 with
    | nil =>
      exfalso
      have h0 : Spec.txOutEncoding a = [] := by
        simp only [Spec.outputsStream, List.map_nil, List.flatten_nil, List.map_cons,
          List.flatten_cons, List.append_eq_nil] at h
        exact h.1
      exact txOutEncoding_ne_nil a h0
    | cons o os =>
      have h' : Spec.txOutEncoding a ++ Spec.outputsStream as =
          Spec.txOutEncoding o ++ Spec.outputsStream os := by
        simpa [Spec.outputsStream] using h
      obtain ⟨hao, hrest⟩ := txOutEncoding_append_inj a o (h1 a (List.mem_cons_self _ _))
        (h2 o (List.mem_cons_self _ _)) _ _ h'
      have htail := ih os (fun x hx => h1 x (List.mem_cons_of_mem _ hx))
        (fun x hx => h2 x (List.mem_cons_of_mem _ hx)) hrest
      rw [hao, htail]

/-- Chunks of one fixed positive length can be read back from their concatenation. -/
theorem flatten_inj_of_length (k : Nat) (hk : 0 < k) (l1 l2 : List (List Byte))
    (h1 : ∀ x ∈ l1, x.length = k) (h2 : ∀ x ∈ l2, x.length = k)
    (h : l1.flatten = l2.flatten) : l1 = l2 := by
  induction l1 generalizing l2 with
  | nil =>
    cases l2 with
    | nil => rfl
    | cons y ys =>
      exfalso
      have hl : (y :: ys).flatten.length = 0 := by rw [← h]; rfl
      have hy := h2 y (List.mem_cons_self _ _)
      rw [List.flatten_cons, List.length_append] at hl
      omega
  | cons x xs ih =>
    cases l2 with
    | nil =>
      exfalso
      have hl : (x :: xs).flatten.length = 0 := by rw [h]; rfl
      have hx := h1 x (List.mem_cons_self _ _)
      rw [List.flatten_cons, List.length_append] at hl
      omega
    | cons y ys =>
      have hx := h1 x (List.mem_cons_self _ _)
      have hy := h2 y (List.mem_cons_self _ _)
      have h' : x ++ xs.flatten = y ++ ys.flatten := by simpa using h
      obtain ⟨hxy, hrest⟩ := List.append_inj h' (hx.trans hy.symm)
      have htail := ih ys (fun z hz => h1 z (List.mem_cons_of_mem _ hz))
        (fun z hz => h2 z (List.mem_cons_of_mem _ hz)) hrest
      rw [hxy, htail]

/-- Two lists with the same image under `f` have the same image under `g` when `f`
determines `g` on their elements. -/
theorem map_eq_of_map_eq {α β γ : Type} (f : α → β) (g : α → γ) (l1 l2 : List α)
    (hfg : ∀ a ∈ l1, ∀ b ∈ l2, f a = f b → g a = g b)
    (h : l1.map f = l2.map f) : l1.map g = l2.map g := by
  induction l1 generalizing l2 with
  | nil =>
    cases l2 with
    | nil => rfl
    | cons b bs => simp at h
  | cons a as ih =>
    cases l2 with
    | nil => simp at h
    | cons b bs =>
      simp only [List.map_cons, List.cons.injEq] at h ⊢
      exact ⟨hfg a (List.mem_cons_self _ _) b (List.mem_cons_self _ _) h.1,
        ih bs (fun x hx y hy => hfg x (List.mem_cons_of_mem _ hx) y (List.mem_cons_of_mem _ hy))
          h.2⟩

theorem outPointBytes_length (o : wire.OutPoint) : (Spec.outPointBytes o).length = 36 := by
  simp [Spec.outPointBytes, o.Hash.size_eq, leBytes_length]

theorem outPointBytes_inj (o1 o2 : wire.OutPoint) (h1 : o1.Index < 2 ^ 32)
    (h2 : o2.Index < 2 ^ 32) (h : Spec.outPointBytes o1 = Spec.outPointBytes o2) : o1 = o2 := by
  obtain ⟨⟨b1, s1⟩, i1⟩ := o1
  obtain ⟨⟨b2, s2⟩, i2⟩ := o2
  simp only [Spec.outPointBytes] at h
  obtain ⟨hb, hi⟩ := List.append_inj h (s1.trans s2.symm)
  have hidx := leBytes4_inj i1 i2 h1 h2 hi
  subst hb
  subst hidx
  rfl

theorem prevOutsStream_inj (l1 l2 : List wire.TxIn) (h1 : ∀ i ∈ l1, i.InRange)
    (h2 : ∀ i ∈ l2, i.InRange) (h : Spec.prevOutsStream l1 = Spec.prevOutsStream l2) :
    l1.map (fun i => i.PreviousOutPoint) = l2.map (fun i => i.PreviousOutPoint) := by
  have hch : l1.map (fun i => Spec.outPointBytes i.PreviousOutPoint) =
      l2.map (fun i => Spec.outPointBytes i.PreviousOutPoint) := by
    apply flatten_inj_of_length 36 (by decide) _ _ _ _ h
    · intro x hx
      obtain ⟨i, _, rfl⟩ := List.mem_map.1 hx
      exact outPointBytes_length _
    · intro x hx
      obtain ⟨i, _, rfl⟩ := List.mem_map.1 hx
      exact outPointBytes_length _
  exact map_eq_of_map_eq _ _ l1 l2
    (fun a ha b hb hab => outPointBytes_inj _ _ (h1 a ha).1 (h2 b hb).1 hab) hch

theorem sequenceStream_inj (l1 l2 : List wire.TxIn) (h1 : ∀ i ∈ l1, i.InRange)
    (h2 : ∀ i ∈ l2, i.InRange) (h : Spec.sequenceStream l1 = Spec.sequenceStream l2) :
    l1.map (fun i => i.Sequence) = l2.map (fun i => i.Sequence) := by
  have hch : l1.map (fun i => Spec.leBytes 4 i.Sequence) =
      l2.map (fun i => Spec.leBytes 4 i.Sequence) := by
    apply flatten_inj_of_length 4 (by decide) _ _ _ _ h
    · intro x hx
      obtain ⟨i, _, rfl⟩ := List.mem_map.1 hx
      exact leBytes_length _ _
    · intro x hx
      obtain ⟨i, _, rfl⟩ := List.mem_map.1 hx
      exact leBytes_length _ _
  exact map_eq_of_map_eq _ _ l1 l2
    (fun a ha b hb hab => leBytes4_inj _ _ (h1 a ha).2 (h2 b hb).2 hab) hch

theorem prevOutsStream_length (l : List wire.TxIn) :
    (Spec.prevOutsStream l).length = 36 * l.length := by
  induction l with
  | nil => rfl
  | cons a as ih =>
    have hc : Spec.prevOutsStream (a :: as) =
        Spec.outPointBytes a.PreviousOutPoint ++ Spec.prevOutsStream as := by
      simp [Spec.prevOutsStream]
    rw [hc, List.length_append, outPointBytes_length, ih, List.length_cons]
    omega

theorem sequenceStream_length (l : List wire.TxIn) :
    (Spec.sequenceStream l).length = 4 * l.length := by
  induction l with
  | nil => rfl
  | cons a as ih =>
    have hc : Spec.sequenceStream (a :: as) =
        Spec.leBytes 4 a.Sequence ++ Spec.sequenceStream as := by
      simp [Spec.sequenceStream]
    rw [hc, List.length_append, leBytes_length, ih, List.length_cons]
    omega

/-! ## Exchanging two elements, replacing one element -/

theorem swapAt_getElem? {α : Type} (l : List α) (i j : Nat) (a b : α)
    (hi : l[i]? = some a) (hj : l[j]? = some b) : (swapAt l i j)[i]? = some b := by
  have hil : i < l.length := (List.getElem?_eq_some.1 hi).1
  unfold swapAt
  simp only [hi, hj]
  by_cases hij : i = j
  · subst hij
    have hab : a = b := by
      rw [hi] at hj
      exact Option.some.inj hj
    subst hab
    simp [List.getElem?_set, hil]
  · have hji : j ≠ i := fun h => hij h.symm
    rw [List.getElem?_set_ne hji]
    simp [List.getElem?_set, hil]

theorem swapAt_mem {α : Type} (l : List α) (i j : Nat) (x : α) (hx : x ∈ swapAt l i j) :
    x ∈ l := by
  unfold swapAt at hx
  cases hi : l[i]? with
  | none => simpa [hi] using hx
  | some a =>
    cases hj : l[j]? with
    | none => simpa [hi, hj] using hx
    | some b =>
      simp only [hi, hj] at hx
      rcases List.mem_or_eq_of_mem_set hx with h | h
      · rcases List.mem_or_eq_of_mem_set h with h' | h'
        · exact h'
        · rw [h']
          exact List.mem_iff_getElem?.2 ⟨j, hj⟩
      · rw [h]
        exact List.mem_iff_getElem?.2 ⟨i, hi⟩

theorem swapAt_map_ne {α β : Type} (f : α → β) (l : List α) (i j : Nat) (a b : α)
    (hi : l[i]? = some a) (hj : l[j]? = some b) (hab : f a ≠ f b) :
    (swapAt l i j).map f ≠ l.map f := by
  intro h
  have h' := congrArg (fun m => m[i]?) h
  simp only [List.getElem?_map, swapAt_getElem? l i j a b hi hj, hi, Option.map_some'] at h'
  exact hab (Option.some.inj h').symm

theorem set_map_ne {α β : Type} (f : α → β) (l : List α) (k : Nat) (a c : α)
    (hk : l[k]? = some a) (hac : f c ≠ f a) : (l.set k c).map f ≠ l.map f := by
  intro h
  obtain ⟨hkl, hka⟩ := List.getElem?_eq_some.1 hk
  have h' := congrArg (fun m => m[k]?) h
  simp [List.getElem?_map, List.getElem?_set, hkl, hk] at h'
  rw [hka] at h'
  exact hac h'

theorem set_mem {α : Type} (p : α → Prop) (l : List α) (k : Nat) (c : α)
    (hl : ∀ x ∈ l, p x) (hc : p c) : ∀ x ∈ l.set k c, p x := by
  intro x hx
  rcases List.mem_or_eq_of_mem_set hx with h | h
  · exact hl x h
  · rw [h]
    exact hc

/-- Transactions in range whose inputs differ in their ordered outpoints have
different previous-outpoints buffers. -/
theorem prevOutsBuffer_ne (tx1 tx2 : MsgTx) (h1 : ∀ i ∈ tx1.TxIn, i.InRange)
    (h2 : ∀ i ∈ tx2.TxIn, i.InRange)
    (h : tx1.TxIn.map (fun i => i.PreviousOutPoint) ≠ tx2.TxIn.map (fun i => i.PreviousOutPoint)) :
    prevOutsBuffer tx1 ≠ prevOutsBuffer tx2 := by
  intro he
  rw [prevOutsBuffer_eq, prevOutsBuffer_eq] at he
  exact h (prevOutsStream_inj _ _ h1 h2 he)

/-- Transactions in range whose inputs differ in their ordered sequence numbers have
different sequence buffers. -/
theorem sequenceBuffer_ne (tx1 tx2 : MsgTx) (h1 : ∀ i ∈ tx1.TxIn, i.InRange)
    (h2 : ∀ i ∈ tx2.TxIn, i.InRange)
    (h : tx1.TxIn.map (fun i => i.Sequence) ≠ tx2.TxIn.map (fun i => i.Sequence)) :
    sequenceBuffer tx1 ≠ sequenceBuffer tx2 := by
  intro he
  rw [sequenceBuffer_eq, sequenceBuffer_eq] at he
  exact h (sequenceStream_inj _ _ h1 h2 he)

/-- Transactions in range with different ordered outputs have different outputs
buffers. -/
theorem outputsBuffer_ne (tx1 tx2 : MsgTx) (h1 : ∀ o ∈ tx1.TxOut, o.InRange)
    (h2 : ∀ o ∈ tx2.TxOut, o.InRange) (h : tx1.TxOut ≠ tx2.TxOut) :
    outputsBuffer tx1 ≠ outputsBuffer tx2 := by
  intro he
  rw [outputsBuffer_eq, outputsBuffer_eq] at he
  exact h (outputsStream_inj _ _ h1 h2 he)

theorem txOut_ne_of_field_ne (a b : wire.TxOut)
    (h : a.Value ≠ b.Value ∨ a.PkScript ≠ b.PkScript) : a ≠ b := by
  intro hab
  subst hab
  rcases h with h | h <;> exact h rfl

/-! ## Order sensitivity and field sensitivity -/

/-- C11: in a transaction whose fields are in the range of their Go types,
exchanging the inputs at two positions changes the buffer hashed by
`calcHashPrevOuts` when their outpoints differ and the buffer hashed by
`calcHashSequence` when their sequence numbers differ; exchanging the outputs at two
positions changes the buffer hashed by `calcHashOutputs` when they differ in amount
or script. In each case the digest changes for every hasher that does not collide on
the two buffers. -/
theorem swap_changes_hashed_stream (tx : MsgTx) (hr : tx.InRange) (i j : Nat) :
    (∀ a b, tx.TxIn[i]? = some a → tx.TxIn[j]? = some b →
        a.PreviousOutPoint ≠ b.PreviousOutPoint →
        prevOutsBuffer { tx with TxIn := swapAt tx.TxIn i j } ≠ prevOutsBuffer tx ∧
        ∀ (ε : Type) (blake2bHash : Hasher ε),
          NoCollision blake2bHash (stringBytes "ZcashPrevoutHash")
            (prevOutsBuffer { tx with TxIn := swapAt tx.TxIn i j }) (prevOutsBuffer tx) →
          (calcHashPrevOuts blake2bHash { tx with TxIn := swapAt tx.TxIn i j }).1 ≠
            (calcHashPrevOuts blake2bHash tx).1) ∧
      (∀ a b, tx.TxIn[i]? = some a → tx.TxIn[j]? = some b →
        a.Sequence ≠ b.Sequence →
        sequenceBuffer { tx with TxIn := swapAt tx.TxIn i j } ≠ sequenceBuffer tx ∧
        ∀ (ε : Type) (blake2bHash : Hasher ε),
          NoCollision blake2bHash (stringBytes "ZcashSequencHash")
            (sequenceBuffer { tx with TxIn := swapAt tx.TxIn i j }) (sequenceBuffer tx) →
          (calcHashSequence blake2bHash { tx with TxIn := swapAt tx.TxIn i j }).1 ≠
            (calcHashSequence blake2bHash tx).1) ∧
      (∀ a b, tx.TxOut[i]? = some a → tx.TxOut[j]? = some b →
        (a.Value ≠ b.Value ∨ a.PkScript ≠ b.PkScript) →
        outputsBuffer { tx with TxOut := swapAt tx.TxOut i j } ≠ outputsBuffer tx ∧
        ∀ (ε : Type) (blake2bHash : Hasher ε),
          NoCollision blake2bHash (stringBytes "ZcashOutputsHash")
            (outputsBuffer { tx with TxOut := swapAt tx.TxOut i j }) (outputsBuffer tx) →
          (calcHashOutputs blake2bHash { tx with TxOut := swapAt tx.TxOut i j }).1 ≠
            (calcHashOutputs blake2bHash tx).1) := by
  obtain ⟨hin, hout⟩ := hr
  refine ⟨fun a b hi hj hab => ?_, fun a b hi hj hab => ?_, fun a b hi hj hab => ?_⟩
  · have hne : prevOutsBuffer { tx with TxIn := swapAt tx.TxIn i j } ≠ prevOutsBuffer tx :=
      prevOutsBuffer_ne _ _ (fun x hx => hin x (swapAt_mem _ _ _ _ hx)) hin
        (swapAt_map_ne (fun t => t.PreviousOutPoint) _ _ _ a b hi hj hab)
    exact ⟨hne, fun ε H hnc hd => hne (hnc hd)⟩
  · have hne : sequenceBuffer { tx with TxIn := swapAt tx.TxIn i j } ≠ sequenceBuffer tx :=
      sequenceBuffer_ne _ _ (fun x hx => hin x (swapAt_mem _ _ _ _ hx)) hin
        (swapAt_map_ne (fun t => t.Sequence) _ _ _ a b hi hj hab)
    exact ⟨hne, fun ε H hnc hd => hne (hnc hd)⟩
  · have hne : outputsBuffer { tx with TxOut := swapAt tx.TxOut i j } ≠ outputsBuffer tx := by
      apply outputsBuffer_ne _ _ (fun x hx => hout x (swapAt_mem _ _ _ _ hx)) hout
      have h := swapAt_map_ne (fun t : wire.TxOut => t) tx.TxOut i j a b hi hj
        (txOut_ne_of_field_ne a b hab)
      simpa using h
    exact ⟨hne, fun ε H hnc hd => hne (hnc hd)⟩

/-- Instance of C11: the two inputs and the two outputs of `sampleTxTwoOutputs`
exchanged, and the digests of a hasher that tells the buffers apart. -/
theorem swap_changes_hashed_stream_witness :
    (prevOutsBuffer { sampleTxTwoOutputs with TxIn := swapAt sampleTxTwoOutputs.TxIn 0 1 } ≠
        prevOutsBuffer sampleTxTwoOutputs ∧
      (calcHashPrevOuts (sampleHasher [])
          { sampleTxTwoOutputs with TxIn := swapAt sampleTxTwoOutputs.TxIn 0 1 }).1 ≠
        (calcHashPrevOuts (sampleHasher []) sampleTxTwoOutputs).1) ∧
      (sequenceBuffer { sampleTxTwoOutputs with TxIn := swapAt sampleTxTwoOutputs.TxIn 0 1 } ≠
        sequenceBuffer sampleTxTwoOutputs ∧
      (calcHashSequence (sampleHasher [])
          { sampleTxTwoOutputs with TxIn := swapAt sampleTxTwoOutputs.TxIn 0 1 }).1 ≠
        (calcHashSequence (sampleHasher []) sampleTxTwoOutputs).1) ∧
      (outputsBuffer { sampleTxTwoOutputs with TxOut := swapAt sampleTxTwoOutputs.TxOut 0 1 } ≠
        outputsBuffer sampleTxTwoOutputs ∧
      (calcHashOutputs (sampleHasher [])
          { sampleTxTwoOutputs with TxOut := swapAt sampleTxTwoOutputs.TxOut 0 1 }).1 ≠
        (calcHashOutputs (sampleHasher []) sampleTxTwoOutputs).1) :=
  ⟨⟨((swap_changes_hashed_stream sampleTxTwoOutputs (by decide) 0 1).1
        _ _ rfl rfl (by decide)).1,
      ((swap_changes_hashed_stream sampleTxTwoOutputs (by decide) 0 1).1
        _ _ rfl rfl (by decide)).2 _ (sampleHasher []) (fun h => absurd h (by decide))⟩,
    ⟨((swap_changes_hashed_stream sampleTxTwoOutputs (by decide) 0 1).2.1
        _ _ rfl rfl (by decide)).1,
      ((swap_changes_hashed_stream sampleTxTwoOutputs (by decide) 0 1).2.1
        _ _ rfl rfl (by decide)).2 _ (sampleHasher []) (fun h => absurd h (by decide))⟩,
    ⟨((swap_changes_hashed_stream sampleTxTwoOutputs (by decide) 0 1).2.2
        _ _ rfl rfl (by decide)).1,
      ((swap_changes_hashed_stream sampleTxTwoOutputs (by decide) 0 1).2.2
        _ _ rfl rfl (by decide)).2 _ (sampleHasher []) (fun h => absurd h (by decide))⟩⟩

/-- C12: in a transaction whose fields are in the range of their Go types, replacing
one input by an input (in range) with another outpoint hash or outpoint index changes
the buffer hashed by `calcHashPrevOuts`; replacing it by one with another sequence
number changes the buffer hashed by `calcHashSequence`; replacing one output by an
output (in range) with another amount or another script changes the buffer hashed by
`calcHashOutputs`. In each case the digest changes for every hasher that does not
collide on the two buffers. -/
theorem field_change_changes_hashed_stream (tx : MsgTx) (hr : tx.InRange) (k : Nat) :
    (∀ a c, tx.TxIn[k]? = some a → c.InRange →
        (c.PreviousOutPoint.Hash ≠ a.PreviousOutPoint.Hash ∨
          c.PreviousOutPoint.Index ≠ a.PreviousOutPoint.Index) →
        prevOutsBuffer { tx with TxIn := tx.TxIn.set k c } ≠ prevOutsBuffer tx ∧
        ∀ (ε : Type) (blake2bHash : Hasher ε),
          NoCollision blake2bHash (stringBytes "ZcashPrevoutHash")
            (prevOutsBuffer { tx with TxIn := tx.TxIn.set k c }) (prevOutsBuffer tx) →
          (calcHashPrevOuts blake2bHash { tx with TxIn := tx.TxIn.set k c }).1 ≠
            (calcHashPrevOuts blake2bHash tx).1) ∧
      (∀ a c, tx.TxIn[k]? = some a → c.InRange →
        c.Sequence ≠ a.Sequence →
        sequenceBuffer { tx with TxIn := tx.TxIn.set k c } ≠ sequenceBuffer tx ∧
        ∀ (ε : Type) (blake2bHash : Hasher ε),
          NoCollision blake2bHash (stringBytes "ZcashSequencHash")
            (sequenceBuffer { tx with TxIn := tx.TxIn.set k c }) (sequenceBuffer tx) →
          (calcHashSequence blake2bHash { tx with TxIn := tx.TxIn.set k c }).1 ≠
            (calcHashSequence blake2bHash tx).1) ∧
      (∀ a c, tx.TxOut[k]? = some a → c.InRange →
        (c.Value ≠ a.Value ∨ c.PkScript ≠ a.PkScript) →
        outputsBuffer { tx with TxOut := tx.TxOut.set k c } ≠ outputsBuffer tx ∧
        ∀ (ε : Type) (blake2bHash : Hasher ε),
          NoCollision blake2bHash (stringBytes "ZcashOutputsHash")
            (outputsBuffer { tx with TxOut := tx.TxOut.set k c }) (outputsBuffer tx) →
          (calcHashOutputs blake2bHash { tx with TxOut := tx.TxOut.set k c }).1 ≠
            (calcHashOutputs blake2bHash tx).1) := by
  obtain ⟨hin, hout⟩ := hr
  refine ⟨fun a c hk hc hac => ?_, fun a c hk hc hac => ?_, fun a c hk hc hac => ?_⟩
  · have hop : c.PreviousOutPoint ≠ a.PreviousOutPoint := by
      intro h
      rcases hac with h' | h'
      · exact h' (by rw [h])
      · exact h' (by rw [h])
    have hne : prevOutsBuffer { tx with TxIn := tx.TxIn.set k c } ≠ prevOutsBuffer tx :=
      prevOutsBuffer_ne _ _ (set_mem _ _ k c hin hc) hin
        (set_map_ne (fun t => t.PreviousOutPoint) _ k a c hk hop)
    exact ⟨hne, fun ε H hnc hd => hne (hnc hd)⟩
  · have hne : sequenceBuffer { tx with TxIn := tx.TxIn.set k c } ≠ sequenceBuffer tx :=
      sequenceBuffer_ne _ _ (set_mem _ _ k c hin hc) hin
        (set_map_ne (fun t => t.Sequence) _ k a c hk hac)
    exact ⟨hne, fun ε H hnc hd => hne (hnc hd)⟩
  · have hne : outputsBuffer { tx with TxOut := tx.TxOut.set k c } ≠ outputsBuffer tx := by
      apply outputsBuffer_ne _ _ (set_mem _ _ k c hout hc) hout
      have h := set_map_ne (fun t : wire.TxOut => t) tx.TxOut k a c hk
        (txOut_ne_of_field_ne c a hac)
      simpa using h
    exact ⟨hne, fun ε H hnc hd => hne (hnc hd)⟩

/-- Instance of C12: in `sampleTx`, the second input with the index 2 in place of 1,
the first input with the sequence number 7 in place of 0, and the output with the
amount 100001 in place of 100000. -/
theorem field_change_changes_hashed_stream_witness :
    (prevOutsBuffer
        { sampleTx with TxIn := sampleTx.TxIn.set 1 ⟨⟨sampleHash 0x22, 2⟩, [], [], 0xffffffff⟩ } ≠
        prevOutsBuffer sampleTx) ∧
      (sequenceBuffer
        { sampleTx with TxIn := sampleTx.TxIn.set 0 ⟨⟨sampleHash 0x11, 0⟩, [], [], 7⟩ } ≠
        sequenceBuffer sampleTx) ∧
      (outputsBuffer
        { sampleTx with TxOut := sampleTx.TxOut.set 0 ⟨100001, [0x76, 0xa9, 0x14, 0x88, 0xac]⟩ } ≠
        outputsBuffer sampleTx) ∧
      (calcHashSequence (sampleHasher [])
          { sampleTx with TxIn := sampleTx.TxIn.set 0 ⟨⟨sampleHash 0x11, 0⟩, [], [], 7⟩ }).1 ≠
        (calcHashSequence (sampleHasher []) sampleTx).1 :=
  ⟨((field_change_changes_hashed_stream sampleTx (by decide) 1).1
      _ ⟨⟨sampleHash 0x22, 2⟩, [], [], 0xffffffff⟩ rfl (by decide) (by decide)).1,
    ((field_change_changes_hashed_stream sampleTx (by decide) 0).2.1
      _ ⟨⟨sampleHash 0x11, 0⟩, [], [], 7⟩ rfl (by decide) (by decide)).1,
    ((field_change_changes_hashed_stream sampleTx (by decide) 0).2.2
      _ ⟨100001, [0x76, 0xa9, 0x14, 0x88, 0xac]⟩ rfl (by decide) (by decide)).1,
    ((field_change_changes_hashed_stream sampleTx (by decide) 0).2.1
      _ ⟨⟨sampleHash 0x11, 0⟩, [], [], 7⟩ rfl (by decide) (by decide)).2
      _ (sampleHasher []) (fun h => absurd h (by decide))⟩

/-! ## The personalization tags -/

/-- C13: each of the four tags is 16 characters and 16 ASCII bytes long, and the four
are pairwise distinct. Each category hash calls the hasher with its own tag, and no
result depends on what the hasher does under the joinsplit tag: two hashers that
agree under every other key give the same three results and the same cache. -/
theorem personalization_tags :
    (prevoutsHashPersonalization = "ZcashPrevoutHash" ∧
        sequenceHashPersonalization = "ZcashSequencHash" ∧
        outputsHashPersonalization = "ZcashOutputsHash" ∧
        joinsplitsHashPersonalization = "ZcashJSplitsHash") ∧
      (∀ t ∈ [prevoutsHashPersonalization, sequenceHashPersonalization,
          outputsHashPersonalization, joinsplitsHashPersonalization],
        t.length = 16 ∧ (stringBytes t).length = 16 ∧ ∀ b ∈ stringBytes t, b.val < 128) ∧
      [stringBytes prevoutsHashPersonalization, stringBytes sequenceHashPersonalization,
        stringBytes outputsHashPersonalization,
        stringBytes joinsplitsHashPersonalization].Nodup ∧
      (∀ (ε : Type) (blake2bHash : Hasher ε) (tx : MsgTx),
        calcHashPrevOuts blake2bHash tx =
          blake2bHash (prevOutsBuffer tx) (stringBytes "ZcashPrevoutHash") ∧
        calcHashSequence blake2bHash tx =
          blake2bHash (sequenceBuffer tx) (stringBytes "ZcashSequencHash") ∧
        calcHashOutputs blake2bHash tx =
          blake2bHash (outputsBuffer tx) (stringBytes "ZcashOutputsHash")) ∧
      (∀ (ε : Type) (h1 h2 : Hasher ε) (tx : MsgTx),
        (∀ data key, key ≠ stringBytes "ZcashJSplitsHash" → h1 data key = h2 data key) →
        calcHashPrevOuts h1 tx = calcHashPrevOuts h2 tx ∧
        calcHashSequence h1 tx = calcHashSequence h2 tx ∧
        calcHashOutputs h1 tx = calcHashOutputs h2 tx ∧
        NewTxSigHashes h1 tx = NewTxSigHashes h2 tx) := by
  refine ⟨⟨rfl, rfl, rfl, rfl⟩, ?_, ?_, fun ε H tx => ⟨rfl, rfl, rfl⟩,
    fun ε h1 h2 tx hagree => ?_⟩
  · set_option maxRecDepth 8000 in decide
  · set_option maxRecDepth 8000 in decide
  have e1 : calcHashPrevOuts h1 tx = calcHashPrevOuts h2 tx :=
    hagree _ _ (by decide)
  have e2 : calcHashSequence h1 tx = calcHashSequence h2 tx :=
    hagree _ _ (by decide)
  have e3 : calcHashOutputs h1 tx = calcHashOutputs h2 tx :=
    hagree _ _ (by decide)
  refine ⟨e1, e2, e3, ?_⟩
  rw [NewTxSigHashes_cases, NewTxSigHashes_cases, e1, e2, e3]

/-- Instance of C13: a hasher that rejects the joinsplit tag and one that rejects no
tag build the same cache for `sampleTx`. -/
theorem personalization_tags_witness :
    NewTxSigHashes (sampleHasher [stringBytes "ZcashJSplitsHash"]) sampleTx =
      NewTxSigHashes (sampleHasher []) sampleTx :=
  (personalization_tags.2.2.2.2 _ (sampleHasher [stringBytes "ZcashJSplitsHash"])
    (sampleHasher []) sampleTx
    (fun data key hkey => by simp [sampleHasher, hkey])).2.2.2

/-! ## The hashed buffers determine the lists they were built from -/

/-- C14: for two transactions whose outputs have `int64` amounts and scripts shorter
than `2^64` bytes, equal buffers hashed by `calcHashOutputs` come from equal output
lists: the same number of outputs and, position by position, the same amount and the
same script. The bytes written for one output are never the start of the bytes
written for another one followed by anything else: two written outputs followed by
two tails agree only for the same output and the same tail. -/
theorem outputsBuffer_determines_outputs (tx1 tx2 : MsgTx)
    (h1 : ∀ o ∈ tx1.TxOut, o.InRange) (h2 : ∀ o ∈ tx2.TxOut, o.InRange) :
    (outputsBuffer tx1 = outputsBuffer tx2 →
        tx1.TxOut.length = tx2.TxOut.length ∧
        (∀ k : Nat, (tx1.TxOut[k]?).map (fun o : wire.TxOut => (o.Value, o.PkScript)) =
          (tx2.TxOut[k]?).map (fun o : wire.TxOut => (o.Value, o.PkScript))) ∧
        tx1.TxOut = tx2.TxOut) ∧
      (∀ o1 ∈ tx1.TxOut, ∀ o2 ∈ tx2.TxOut, ∀ t1 t2 : List Byte,
        (wire.WriteTxOut [] 0 0 o1).1 ++ t1 = (wire.WriteTxOut [] 0 0 o2).1 ++ t2 →
        o1 = o2 ∧ t1 = t2) := by
  refine ⟨fun h => ?_, fun o1 ho1 o2 ho2 t1 t2 h => ?_⟩
  · rw [outputsBuffer_eq, outputsBuffer_eq] at h
    have e := outputsStream_inj _ _ h1 h2 h
    exact ⟨by rw [e], fun k => by rw [e], e⟩
  · simp only [writeTxOut_eq, List.nil_append] at h
    exact txOutEncoding_append_inj o1 o2 (h1 o1 ho1) (h2 o2 ho2) t1 t2 h

/-- Instance of C14: `sampleTx` and `sampleTxResigned` have equal outputs buffers and
equal outputs; the output of `sampleTx` is the first of the two outputs of
`sampleTxTwoOutputs`, and the buffers differ. -/
theorem outputsBuffer_determines_outputs_witness :
    sampleTx.TxOut = sampleTxResigned.TxOut ∧
      (outputsBuffer sampleTx = outputsBuffer sampleTxTwoOutputs →
        sampleTx.TxOut.length = sampleTxTwoOutputs.TxOut.length) ∧
      outputsBuffer sampleTx ≠ outputsBuffer sampleTxTwoOutputs :=
  ⟨((outputsBuffer_determines_outputs sampleTx sampleTxResigned (by decide) (by decide)).1
      (by decide)).2.2,
    fun h => ((outputsBuffer_determines_outputs sampleTx sampleTxTwoOutputs
      (by decide) (by decide)).1 h).1,
    by decide⟩

/-- C15: for a transaction with `n` inputs the buffer hashed by `calcHashPrevOuts` is
`36 * n` bytes long and the buffer hashed by `calcHashSequence` is `4 * n` bytes
long. For two transactions whose indices and sequence numbers are `uint32` values,
equal previous-outpoints buffers come from the same number of inputs with the same
outpoint at every position, and equal sequence buffers from the same number of
inputs with the same sequence number at every position. -/
theorem input_buffers_determine_inputs (tx1 tx2 : MsgTx)
    (h1 : ∀ i ∈ tx1.TxIn, i.InRange) (h2 : ∀ i ∈ tx2.TxIn, i.InRange) :
    (prevOutsBuffer tx1).length = 36 * tx1.TxIn.length ∧
      (sequenceBuffer tx1).length = 4 * tx1.TxIn.length ∧
      (prevOutsBuffer tx1 = prevOutsBuffer tx2 →
        tx1.TxIn.length = tx2.TxIn.length ∧
        tx1.TxIn.map (fun i => i.PreviousOutPoint) =
          tx2.TxIn.map (fun i => i.PreviousOutPoint)) ∧
      (sequenceBuffer tx1 = sequenceBuffer tx2 →
        tx1.TxIn.length = tx2.TxIn.length ∧
        tx1.TxIn.map (fun i => i.Sequence) = tx2.TxIn.map (fun i => i.Sequence)) := by
  refine ⟨?_, ?_, fun h => ?_, fun h => ?_⟩
  · rw [prevOutsBuffer_eq, prevOutsStream_length]
  · rw [sequenceBuffer_eq, sequenceStream_length]
  · rw [prevOutsBuffer_eq, prevOutsBuffer_eq] at h
    have e := prevOutsStream_inj _ _ h1 h2 h
    have hl := congrArg List.length e
    simp only [List.length_map] at hl
    exact ⟨hl, e⟩
  · rw [sequenceBuffer_eq, sequenceBuffer_eq] at h
    have e := sequenceStream_inj _ _ h1 h2 h
    have hl := congrArg List.length e
    simp only [List.length_map] at hl
    exact ⟨hl, e⟩

/-- Instance of C15: `sampleTx` has two inputs, buffers of 72 and 8 bytes, and the
buffers of `sampleTxResigned`. -/
theorem input_buffers_determine_inputs_witness :
    (prevOutsBuffer sampleTx).length = 72 ∧
      (sequenceBuffer sampleTx).length = 8 ∧
      sampleTx.TxIn.map (fun i => i.PreviousOutPoint) =
        sampleTxResigned.TxIn.map (fun i => i.PreviousOutPoint) ∧
      sampleTx.TxIn.map (fun i => i.Sequence) =
        sampleTxResigned.TxIn.map (fun i => i.Sequence) :=
  ⟨(input_buffers_determine_inputs sampleTx sampleTxResigned (by decide) (by decide)).1,
    (input_buffers_determine_inputs sampleTx sampleTxResigned (by decide) (by decide)).2.1,
    ((input_buffers_determine_inputs sampleTx sampleTxResigned (by decide) (by decide)).2.2.1
      (by decide)).2,
    ((input_buffers_determine_inputs sampleTx sampleTxResigned (by decide) (by decide)).2.2.2
      (by decide)).2⟩

end Zecutil
